import Mathlib

/-!
# Verification of the nbn-userscript core (src/nbn-re.com.au.userscript.user.js)

A shallow embedding of the core logic of the userscript:

* configuration constants,
* `toRepoSlug` (slug normalization),
* the bounded-concurrency fetch queue (`processQueue` / `enqueue`),
* `normalizeAddress`, `indexGeojsonAddresses`, `matchListingAddressToFeature`,
* `summarizeGeoJSON` / `normalizeTypeString`,
* the cached lookup `fetchSuburbGeoJSON` with its inner try-candidates loop,
* the cache eviction sweep `cleanupCache`.

Machine numbers are modelled as `Int`/`Nat` (JS numbers in play here are
timestamps and small counters, far below 2^53, so integer arithmetic is
exact).  JS strings are modelled through `String`/`List Char` at ASCII
fidelity: the platform calls `toLowerCase`/`trim`/`\s` are modelled by their
ASCII behaviour, and `String.prototype.normalize('NFKD')` is modelled as the
identity (it is the identity on ASCII text; all characters this script keeps
are ASCII).  Fallible platform operations (IndexedDB reads and writes, the
network fetch, `JSON.parse`) are modelled by explicit outcome values.
-/

/-! ## Configuration constants (lines 33-36 of the source) -/

/-- `CACHE_TTL_MS = 7 * 24 * 60 * 60 * 1000` (7 days). -/
def CACHE_TTL_MS : Int := 7 * 24 * 60 * 60 * 1000

/-- `CACHE_EXPIRY_MS = 4 * 7 * 24 * 60 * 60 * 1000` (4 weeks). -/
def CACHE_EXPIRY_MS : Int := 4 * 7 * 24 * 60 * 60 * 1000

/-- `MAX_CONCURRENT_FETCHES = 4`. -/
def MAX_CONCURRENT_FETCHES : Nat := 4

/-- `CACHE_MAX_ENTRIES = 100`. -/
def CACHE_MAX_ENTRIES : Nat := 100

/-! ## Character-level utilities shared by the two normalizers -/

/-- The JS whitespace class `\s` (and the characters removed by
`String.prototype.trim`), at ASCII fidelity. -/
def jsIsSpace (c : Char) : Bool := c.isWhitespace

/-- `String.prototype.trim`: remove leading and trailing whitespace. -/
def jsTrim (l : List Char) : List Char :=
  ((l.dropWhile jsIsSpace).reverse.dropWhile jsIsSpace).reverse

/-- One pass of `replace(/X+/g, r)` for a character class `p`: every maximal
run of characters satisfying `p` is replaced by the single character `r`.
The boolean flag records whether the previous character belonged to a run. -/
def collapseRuns (p : Char → Bool) (r : Char) : Bool → List Char → List Char
  | _, [] => []
  | inRun, c :: cs =>
    if p c then
      if inRun then collapseRuns p r true cs
      else r :: collapseRuns p r true cs
    else c :: collapseRuns p r false cs

/-! ## `toRepoSlug` (source lines 113-128) -/

/-- The combining-mark range removed by `replace(/[̀-ͯ]/g, '')`
after NFKD normalization. -/
def isCombiningMark (c : Char) : Bool := 0x300 ≤ c.toNat && c.toNat ≤ 0x36f

/-- The character class kept by `replace(/[^a-z0-9\s-]/g, '')`. -/
def slugKeep (c : Char) : Bool := c.isLower || c.isDigit || jsIsSpace c || c = '-'

/-- `replace(/&/g, 'and')`. -/
def expandAmp : List Char → List Char
  | [] => []
  | c :: cs => if c = '&' then 'a' :: 'n' :: 'd' :: expandAmp cs else c :: expandAmp cs

/-- The character pipeline of `toRepoSlug`: trim; lowercase; `&`→`and`;
NFKD (identity on ASCII) plus removal of combining marks; drop everything
outside `[a-z0-9\s-]`; collapse whitespace runs to `-`; collapse `-` runs. -/
def toRepoSlugChars (l : List Char) : List Char :=
  collapseRuns (fun c => c = '-') '-' false
    (collapseRuns jsIsSpace '-' false
      (((expandAmp ((jsTrim l).map Char.toLower)).filter
          (fun c => !isCombiningMark c)).filter slugKeep))

/-- `toRepoSlug(name)`; `if (!name) return ''` handles the empty string
(the only falsy string). -/
def toRepoSlug (name : String) : String :=
  if name = "" then "" else ⟨toRepoSlugChars name.data⟩

/-! ## `normalizeAddress` (source lines 242-259) -/

/-- The JS word-character class `\w = [A-Za-z0-9_]`, which determines the
word boundaries `\b` used by the abbreviation replacements. -/
def isWordChar (c : Char) : Bool := c.isAlpha || c.isDigit || c = '_'

/-- Split a string into its maximal runs of characters of equal
word-character class.  `\b(x)\b` matches exactly the word runs equal to
`x`, so the word-boundary replacements act on these runs. -/
def splitRuns : List Char → List (List Char)
  | [] => []
  | c :: cs =>
    match splitRuns cs with
    | [] => [[c]]
    | [] :: rest => [c] :: [] :: rest
    | (d :: ds) :: rest =>
      if isWordChar c = isWordChar d then (c :: d :: ds) :: rest
      else [c] :: (d :: ds) :: rest

/-- The chain of word-boundary abbreviation replacements
`\b(st|str)\b → street`, `\brd\b → road`, `\bave\b → avenue`, `\bct\b →
court`, `\bpl\b → place`, `\bln\b → lane`, `\bdr\b → drive`, as the
substitution each maximal word run undergoes.  The source applies the seven
`replace` calls in sequence, but no replacement word contains a later
pattern as a whole word, so the sequence acts as this single per-run map. -/
def replaceAbbrev (run : List Char) : List Char :=
  if run = "st".data ∨ run = "str".data then "street".data
  else if run = "rd".data then "road".data
  else if run = "ave".data then "avenue".data
  else if run = "ct".data then "court".data
  else if run = "pl".data then "place".data
  else if run = "ln".data then "lane".data
  else if run = "dr".data then "drive".data
  else run

/-- All the word-boundary abbreviation replacements at once. -/
def expandAbbrevs (l : List Char) : List Char :=
  ((splitRuns l).map replaceAbbrev).flatten

/-- `replace(/(\d+)\/(\d+)/g, 'unit $1 $2')`: scan left to right; at a
maximal digit run followed by `/` and at least one digit, rewrite the
match and continue after it (JS `replace` with `/g` finds non-overlapping
matches left to right).  Runs on fuel bounded by the list length so the
definition is structural and computes by `decide`. -/
def unitSlashGo : Nat → List Char → List Char
  | 0, l => l
  | _ + 1, [] => []
  | fuel + 1, c :: cs =>
    if c.isDigit then
      let run1 := c :: cs.takeWhile Char.isDigit
      let rest1 := cs.dropWhile Char.isDigit
      match rest1 with
      | '/' :: r2 =>
        match r2 with
        | d :: _ =>
          if d.isDigit then
            let run2 := r2.takeWhile Char.isDigit
            let rest2 := r2.dropWhile Char.isDigit
            "unit ".data ++ run1 ++ [' '] ++ run2 ++ unitSlashGo fuel rest2
          else run1 ++ '/' :: unitSlashGo fuel r2
        | [] => run1 ++ ['/']
      | _ => run1 ++ unitSlashGo fuel rest1
    else c :: unitSlashGo fuel cs

/-- `replace(/(\d+)\/(\d+)/g, 'unit $1 $2')`. -/
def unitSlash (l : List Char) : List Char := unitSlashGo l.length l

/-- The punctuation class removed by
`replace(/[.,\/#!$%\^&\*;:{}=\-_`~()]/g, '')`.  The brace and backtick
characters are written by code point. -/
def punctChars : List Char :=
  ['.', ',', '/', '#', '!', '$', '%', '^', '&', '*', ';', ':',
   Char.ofNat 123, Char.ofNat 125, '=', '-', '_', Char.ofNat 96, '~', '(', ')']

/-- The character pipeline of `normalizeAddress`: lowercase; expand street
abbreviations at word boundaries; `N/M → unit N M`; strip punctuation;
collapse whitespace to single spaces; trim. -/
def normalizeAddressChars (l : List Char) : List Char :=
  jsTrim (collapseRuns jsIsSpace ' ' false
    ((unitSlash (expandAbbrevs (l.map Char.toLower))).filter
      (fun c => !punctChars.contains c)))

/-- `normalizeAddress(addr)`; `if (!addr) return ''` handles the empty
string. -/
def normalizeAddress (addr : String) : String :=
  if addr = "" then "" else ⟨normalizeAddressChars addr.data⟩

example : normalizeAddress "12 Smith St" = "12 smith street" := by decide
example : normalizeAddress "1/10 Main Rd" = "unit 1 10 main road" := by decide
example : normalizeAddress "." = "" := by decide
example : toRepoSlug "  Acacia  Ridge " = "acacia-ridge" := by decide
example : toRepoSlug "St. Mary's & Co -- East" = "st-marys-and-co-east" := by decide

/-! ## The bounded-concurrency fetch queue (source lines 93-110)

`active` is the number of running tasks, `queue` the pending task ids in
submission order.  `processQueue` admits at most one task per call, namely
the head of the queue, and only while under the concurrency limit.
`enqueue` pushes a task and calls `processQueue`; a task's completion
(`completeTask`) decrements `active` and calls `processQueue` (the
`finally` handler).  The second component of each operation is the task
admitted by that call, if any. -/

structure SchedState where
  active : Nat
  queue : List Nat
deriving DecidableEq, Repr

/-- `processQueue()`: return unless under the limit; take the queue head,
if any, and start it. -/
def processQueue (s : SchedState) : SchedState × Option Nat :=
  if s.active ≥ MAX_CONCURRENT_FETCHES then (s, none)
  else
    match s.queue with
    | [] => (s, none)
    | t :: rest => (⟨s.active + 1, rest⟩, some t)

/-- `enqueue(fn)`: push the task, then `processQueue()`. -/
def enqueue (s : SchedState) (t : Nat) : SchedState × Option Nat :=
  processQueue ⟨s.active, s.queue ++ [t]⟩

/-- The `finally` handler of a running task: `active--; processQueue()`. -/
def completeTask (s : SchedState) : SchedState × Option Nat :=
  processQueue ⟨s.active - 1, s.queue⟩

/-- One scheduler event: a task submission, or the completion of one of the
currently running tasks (hence `0 < s.active`). -/
inductive SchedStep : SchedState → SchedState → Prop
  | enqueue (s : SchedState) (t : Nat) : SchedStep s (enqueue s t).1
  | complete (s : SchedState) (h : 0 < s.active) : SchedStep s (completeTask s).1

/-- States reachable from the initial state `active = 0`, `queue = []`
(source lines 93-94) by scheduler events. -/
inductive SchedReachable : SchedState → Prop
  | init : SchedReachable ⟨0, []⟩
  | step {s s' : SchedState} : SchedReachable s → SchedStep s s' → SchedReachable s'

/-! ## The GeoJSON value model

A parsed `JSON.parse` result as far as the script inspects it: JSON `null`
(falsy, and reading a property of it throws a `TypeError`), or an object
with an optional `features` field (an array of features or some non-array
value), and optional `generated` / `generated_at` fields.  Truthy
non-object primitives behave like an object with no fields for the
property reads the script performs, and are covered by
`features = missing`.  Property values in a feature's `properties` bag are
strings or arrays of strings (`Array.isArray` is the one structural test
the script performs on them). -/

inductive PropVal where
  | str (s : String)
  | arr (xs : List String)
deriving DecidableEq, Repr

/-- JS truthiness of a property value: `''` is falsy, every other string is
truthy, and every array is truthy. -/
def PropVal.truthy : PropVal → Bool
  | .str s => s ≠ ""
  | .arr _ => true

/-- JS `String(v)`: identity on strings; arrays join with `","`. -/
def PropVal.toStr : PropVal → String
  | .str s => s
  | .arr xs => String.intercalate "," xs

/-- A feature record: `properties` is an open string-keyed bag
(`f.properties || {}` makes a missing bag equal to the empty one), and
`geometry` is opaque — it is only ever tested for truthiness and passed to
`JSON.stringify`, so it is modelled by its serialized form when present. -/
structure Feature where
  props : List (String × PropVal)
  geometry : Option String
deriving DecidableEq, Repr

/-- Property read `f.properties.k` (JS objects have no duplicate keys, so
first-match lookup is exact). -/
def getProp (f : Feature) (k : String) : Option PropVal := f.props.lookup k

/-- The `features` field of a parsed payload. -/
inductive FeaturesField where
  | missing
  | notArray
  | arr (fs : List Feature)
deriving DecidableEq, Repr

structure GeojsonObj where
  features : FeaturesField
  generated : Option String
  generated_at : Option String
deriving DecidableEq, Repr

inductive Geojson where
  | jnull
  | obj (o : GeojsonObj)
deriving DecidableEq, Repr

/-- The feature list the script iterates over: present exactly when the
guard `geojson && Array.isArray(geojson.features)` passes. -/
def featuresArrayOf : Geojson → Option (List Feature)
  | .obj ⟨.arr fs, _, _⟩ => some fs
  | _ => none

/-- The features of a payload, empty for malformed shapes. -/
def featuresOf (g : Geojson) : List Feature := (featuresArrayOf g).getD []

/-! ## `normalizeTypeString` (source lines 328-341) and the summarizer -/

/-- `hay.includes(needle)` on character lists. -/
def listIncludes (hay needle : List Char) : Bool :=
  hay.tails.any (fun t => needle.isPrefixOf t)

/-- `t.includes(sub)` for strings. -/
def strIncludes (t sub : String) : Bool := listIncludes t.data sub.data

/-- `String.prototype.toLowerCase` at ASCII fidelity, character by
character (kept at the character level so that concrete instances compute
inside the kernel). -/
def lowerStr (s : String) : String := ⟨s.data.map Char.toLower⟩

/-- `normalizeTypeString(s)`: falsy input maps to `'Non-NBN'`; otherwise
case-insensitive substring tests against the per-category keyword sets, in
source order; an unrecognized value is returned verbatim (as an object key
it coerces to `String(s)`). -/
def normalizeTypeString (v : PropVal) : String :=
  if !v.truthy then "Non-NBN"
  else
    let t := lowerStr v.toStr
    if strIncludes t "fttp" || strIncludes t "fibre to the premises" then "FTTP"
    else if strIncludes t "fttn" || strIncludes t "fibre to the node" then "FTTN"
    else if strIncludes t "fttc" || strIncludes t "fibre to the curb" then "FTTC"
    else if strIncludes t "hfc" || strIncludes t "hybrid" then "HFC"
    else if strIncludes t "fttb" || strIncludes t "fibre to the building" then "FTTB"
    else if strIncludes t "fixed wireless" || strIncludes t "fixedwireless"
        || strIncludes t "fixed-wireless" then "Fixed Wireless"
    else if strIncludes t "satellite" || strIncludes t "sat" then "Satellite"
    else if strIncludes t "non" || strIncludes t "unknown" || strIncludes t "not"
        || strIncludes t "no nbn" then "Non-NBN"
    else v.toStr

/-- First truthy value of a JS `||` chain over optional property reads. -/
def firstTruthy : List (Option PropVal) → Option PropVal
  | [] => none
  | some pv :: rest => if pv.truthy then some pv else firstTruthy rest
  | none :: rest => firstTruthy rest

/-- The candidate technology keys tried in order (source lines 290-299),
with the loop body `if (!c) continue; type = Array.isArray(c) ?
c.join(', ') : String(c); break`. -/
def rawTypeOf (f : Feature) : Option String :=
  (firstTruthy [getProp f "nbn_technology", getProp f "technology",
    getProp f "connection_type", getProp f "type", getProp f "nbn_type",
    getProp f "status", getProp f "service_type", getProp f "network"]).map
    (fun pv => match pv with
      | .str s => s
      | .arr xs => String.intercalate ", " xs)

/-- `if (props.preset) ... else if (props.label) ... else 'Non-NBN'`. -/
def truthyOr (v : Option PropVal) (els : PropVal) : PropVal :=
  match v with
  | some pv => if pv.truthy then pv else els
  | none => els

/-- The fallback chain run when the candidate loop produced a falsy `type`
(source lines 308-312). -/
def fallbackTypeVal (f : Feature) : PropVal :=
  truthyOr (getProp f "preset") (truthyOr (getProp f "label") (.str "Non-NBN"))

/-- The value handed to `normalizeTypeString` for a feature: the candidate
loop's string when truthy, else the `preset`/`label`/`'Non-NBN'` fallback
(an empty join, e.g. from an empty array candidate, is falsy and also
falls back). -/
def typeValOf (f : Feature) : PropVal :=
  match rawTypeOf f with
  | some s => if s = "" then fallbackTypeVal f else .str s
  | none => fallbackTypeVal f

/-- The category a feature is counted under. -/
def catOf (f : Feature) : String := normalizeTypeString (typeValOf f)

/-- The address `||` chain common to the summarizer and the indexer
(source lines 267 and 319): `props.full_address || props.address ||
props.premise_address || props.ADDRESS || props.addr ||
props.street_address`. -/
def addressValOf (f : Feature) : Option PropVal :=
  firstTruthy [getProp f "full_address", getProp f "address",
    getProp f "premise_address", getProp f "ADDRESS", getProp f "addr",
    getProp f "street_address"]

/-- The example captured for a category:
`address || (f.geometry ? JSON.stringify(f.geometry) : '')`.  The raw
address value is stored (it can be an array); when the `||` chain over the
address keys yields no truthy value, `address` is `''` and the fingerprint
side of the outer `||` is taken — the stringified geometry when geometry
is truthy, else `''`. -/
def exampleVal (f : Feature) : PropVal :=
  match addressValOf f with
  | some v => v
  | none => match f.geometry with
    | some g => .str g
    | none => .str ""

/-- `counts[type] = (counts[type] || 0) + 1` on an insertion-ordered
association list (JS string-keyed objects preserve insertion order). -/
def bump (k : String) : List (String × Nat) → List (String × Nat)
  | [] => [(k, 1)]
  | (k', v) :: rest => if k' = k then (k', v + 1) :: rest else (k', v) :: bump k rest

/-- `if (!examples[type]) examples[type] = v`: set when the key is absent
or its stored value is falsy under JS truthiness (only `''` here — arrays,
including the empty array, are truthy); keep a truthy value. -/
def setIfFalsy (k : String) (v : PropVal) :
    List (String × PropVal) → List (String × PropVal)
  | [] => [(k, v)]
  | (k', e) :: rest =>
    if k' = k then (if e.truthy then (k', e) :: rest else (k', v) :: rest)
    else (k', e) :: setIfFalsy k v rest

structure Summary where
  counts : List (String × Nat)
  examples : List (String × PropVal)
  total : Nat
deriving DecidableEq, Repr

/-- `summarizeGeoJSON(geojson)` (source lines 283-325): a guard for
malformed payloads, then one pass over the features accumulating counts
and first examples; `total` is the sum of the counts. -/
def summarizeGeoJSON (g : Geojson) : Summary :=
  match featuresArrayOf g with
  | none => ⟨[], [], 0⟩
  | some fs =>
    let acc := fs.foldl
      (fun (acc : List (String × Nat) × List (String × PropVal)) f =>
        let t := catOf f
        (bump t acc.1, setIfFalsy t (exampleVal f) acc.2))
      ([], [])
    ⟨acc.1, acc.2, acc.1.foldl (fun s kv => s + kv.2) 0⟩

/-! ## The address index and matcher (source lines 262-280) -/

/-- The address index, a `Map` keyed by normalized address.  `Map.set` on
an existing key overwrites in place; on a new key it appends. -/
def AddrIndex := List (String × Feature)
deriving instance DecidableEq for AddrIndex

/-- `Map.prototype.set`. -/
def mapSet (k : String) (v : Feature) : AddrIndex → AddrIndex
  | [] => [(k, v)]
  | (k', v') :: rest =>
    if k' = k then (k', v) :: rest else (k', v') :: mapSet k v rest

/-- `Map.prototype.get`, `undefined` as `none`. -/
def mapGet (k : String) : AddrIndex → Option Feature
  | [] => none
  | (k', v) :: rest => if k' = k then some v else mapGet k rest

/-- One iteration of the indexing loop: a feature with a truthy string
address is indexed under its normalized address; a feature with no truthy
address is skipped; a truthy non-string (array) address makes
`normalizeAddress(address)` call `addr.toLowerCase()` on an array, an
uncaught `TypeError` — modelled as `none`, aborting the construction. -/
def indexStep (idx : AddrIndex) (f : Feature) : Option AddrIndex :=
  match addressValOf f with
  | some (.str s) => some (mapSet (normalizeAddress s) f idx)
  | some (.arr _) => none
  | none => some idx

/-- `indexGeojsonAddresses(geojson)`: the malformed-payload guard returns
the empty index; otherwise the features are indexed in order, and the
whole call throws (`none`) at the first array-valued address. -/
def indexGeojsonAddresses (g : Geojson) : Option AddrIndex :=
  match featuresArrayOf g with
  | none => some []
  | some fs => fs.foldlM indexStep []

/-- `matchListingAddressToFeature(listingAddress, addressIndex)`: a falsy
(empty or missing) query returns `null` before any lookup; otherwise the
query is normalized with the same function used to build the index and
looked up exactly (`addressIndex.get(normalized) || null`; the index
argument itself is always a `Map`, so `!addressIndex` never fires). -/
def matchListingAddressToFeature (listingAddress : String)
    (addressIndex : AddrIndex) : Option Feature :=
  if listingAddress = "" then none
  else mapGet (normalizeAddress listingAddress) addressIndex

/-! ## `fetchSuburbGeoJSON` and its try-candidates loop (source lines 146-186)

The environment is modelled explicitly: the outcome of fetching each
candidate URL is given as a list (in candidate order), the IndexedDB read
as a `ReadResult`, and the IndexedDB write by a flag `writeOk` saying
whether `idbSet` succeeds (its failure is caught and logged).  `now` is
`Date.now()`. -/

/-- Outcome of one candidate attempt: a non-ok HTTP status, a thrown error
(network failure from `fetch`/`res.text()`, or `JSON.parse` failure), or a
successfully parsed body. -/
inductive FetchOutcome where
  | httpError (status : Nat)
  | thrown (msg : String)
  | success (data : Geojson)
deriving DecidableEq, Repr

/-- The errors the loop records:
`new Error('HTTP <status> for <url>')` for a non-ok response, a caught
thrown error, and `new Error('No candidate returned')` when the loop ends
with nothing recorded. -/
inductive LookupErr where
  | httpStatus (status : Nat) (url : String)
  | thrownErr (msg : String)
  | noCandidate
deriving DecidableEq, Repr

/-- `data.generated || data.generated_at || null`, where the empty string
is falsy. -/
def truthyStr : Option String → Option String
  | some s => if s = "" then none else some s
  | none => none

def generatedOf : Geojson → Option String
  | .jnull => none
  | .obj o => (truthyStr o.generated).orElse (fun _ => truthyStr o.generated_at)

/-- A persisted cache record
`{ fetchedAt: Date.now(), generatedAt, source: url, data }`.  `fetchedAt`
is optional only to model records missing the field, which the source
guards with `|| 0`; every record this code writes carries it. -/
structure CacheEntry where
  fetchedAt : Option Int
  generatedAt : Option String
  source : String
  data : Geojson
deriving DecidableEq, Repr

/-- The `cachedObj` built on a successful candidate (source line 174). -/
def entryFor (now : Int) (url : String) (data : Geojson) : CacheEntry :=
  ⟨some now, generatedOf data, url, data⟩

/-- The error one candidate attempt records, `none` when the attempt
succeeds outright.  A parsed body of JSON `null` is a success of
`JSON.parse`, but building `cachedObj` then reads `data.generated` on
`null`, which throws a `TypeError` that the loop's `catch` records. -/
def candErr (url : String) : FetchOutcome → Option LookupErr
  | .httpError s => some (.httpStatus s url)
  | .thrown m => some (.thrownErr m)
  | .success .jnull => some (.thrownErr "TypeError")
  | .success (.obj _) => none

instance instExceptDecEq {ε α : Type} [DecidableEq ε] [DecidableEq α] :
    DecidableEq (Except ε α)
  | .error a, .error b =>
    if h : a = b then isTrue (by subst h; rfl)
    else isFalse (fun hc => h (by cases hc; rfl))
  | .error _, .ok _ => isFalse (fun hc => by cases hc)
  | .ok _, .error _ => isFalse (fun hc => by cases hc)
  | .ok a, .ok b =>
    if h : a = b then isTrue (by subst h; rfl)
    else isFalse (fun hc => h (by cases hc; rfl))

/-- Result of the try-candidates loop: the value returned or error thrown,
and the cache record written, if the write happened and succeeded. -/
structure TryResult where
  result : Except LookupErr Geojson
  written : Option CacheEntry
deriving DecidableEq, Repr

/-- The `tryFetch` loop (source lines 162-183): iterate the candidates in
order, recording the error of each failed attempt in `lastErr`; on the
first successful attempt build `cachedObj`, attempt the cache write
(failure caught and logged), and return the payload; if the loop
exhausts, `throw lastErr || new Error('No candidate returned')`. -/
def tryFetchLoop (now : Int) (writeOk : Bool) :
    List (String × FetchOutcome) → Option LookupErr → TryResult
  | [], lastErr => ⟨.error (lastErr.getD .noCandidate), none⟩
  | (url, out) :: rest, lastErr =>
    match out with
    | .httpError s => tryFetchLoop now writeOk rest (some (.httpStatus s url))
    | .thrown m => tryFetchLoop now writeOk rest (some (.thrownErr m))
    | .success .jnull => tryFetchLoop now writeOk rest (some (.thrownErr "TypeError"))
    | .success (.obj o) =>
      ⟨.ok (.obj o), if writeOk then some (entryFor now url (.obj o)) else none⟩

/-- The first candidate whose attempt succeeds outright (HTTP ok, parse
ok, payload not JSON `null`). -/
def firstGoodSuccess : List (String × FetchOutcome) → Option (String × Geojson)
  | [] => none
  | (url, .success (.obj o)) :: _ => some (url, .obj o)
  | _ :: rest => firstGoodSuccess rest

/-- The first candidate with an ok HTTP status and successful parse —
the reading of "first success" in the claim under test. -/
def firstSuccess : List (String × FetchOutcome) → Option (String × Geojson)
  | [] => none
  | (url, .success d) :: _ => some (url, d)
  | _ :: rest => firstSuccess rest

/-- The last error the loop records when no candidate succeeds. -/
def lastRecordedErr (outs : List (String × FetchOutcome)) : Option LookupErr :=
  (outs.filterMap (fun p => candErr p.1 p.2)).getLast?

/-- Outcome of the `idbGet` read at the top of `fetchSuburbGeoJSON`:
resolved with a record or with `undefined`, or rejected (the rejection is
caught and logged, source lines 156-158). -/
inductive ReadResult where
  | got (entry : Option CacheEntry)
  | readError
deriving DecidableEq, Repr

/-- Observable outcome of one `fetchSuburbGeoJSON` call: the value
returned or error thrown, the cache record written (if any), and whether
the candidate fetch stage ran at all. -/
structure LookupResult where
  result : Except LookupErr Geojson
  written : Option CacheEntry
  fetched : Bool
deriving DecidableEq, Repr

/-- `fetchSuburbGeoJSON(suburb, state, force)` (source lines 147-186):
if the read yields a record, `force` is not set and
`Date.now() - (cached.fetchedAt || 0) < CACHE_TTL_MS`, return the cached
payload; otherwise run the try-candidates loop (`enqueue(tryFetch)`
forwards the loop's result through the scheduler unchanged). -/
def fetchSuburbGeoJSON (now : Int) (read : ReadResult) (force : Bool)
    (outs : List (String × FetchOutcome)) (writeOk : Bool) : LookupResult :=
  let cachedHit : Option Geojson :=
    match read with
    | .got (some cached) =>
      if force then none
      else if now - (cached.fetchedAt.getD 0) < CACHE_TTL_MS then some cached.data
      else none
    | _ => none
  match cachedHit with
  | some d => ⟨.ok d, none, false⟩
  | none =>
    let r := tryFetchLoop now writeOk outs none
    ⟨r.result, r.written, true⟩

/-! ## The cache eviction sweep `cleanupCache` (source lines 676-712)

The store's contents are a list of `(key, value)` records (IndexedDB keys
are unique).  The sweep collects all records, sorts them by `fetchedAt`
ascending (`Array.prototype.sort` is stable), deletes every expired record
(`now - (fetchedAt || 0) > CACHE_EXPIRY_MS`) plus, if the remainder still
exceeds `CACHE_MAX_ENTRIES`, the oldest remaining records down to the
bound; deletion is by key. -/

def StoreEntry := String × CacheEntry
deriving instance DecidableEq for StoreEntry

/-- `e.value.fetchedAt || 0`. -/
def fetchedAtD (e : StoreEntry) : Int := e.2.fetchedAt.getD 0

/-- The comparator `(a, b) => (a.value.fetchedAt || 0) - (b.value.fetchedAt || 0)`. -/
def byFetchedAt (a b : StoreEntry) : Prop := fetchedAtD a ≤ fetchedAtD b

instance : DecidableRel byFetchedAt := fun a b => Int.decLe _ _

instance : IsTotal StoreEntry byFetchedAt := ⟨fun a b => Int.le_total _ _⟩

instance : IsTrans StoreEntry byFetchedAt := ⟨fun _ _ _ => Int.le_trans⟩

/-- `entries.sort(...)`: stable ascending sort by `fetchedAt`
(`insertionSort` with `≤` is stable, like the JS sort). -/
def sortByFetchedAt (entries : List StoreEntry) : List StoreEntry :=
  List.insertionSort byFetchedAt entries

/-- `(now - (e.value.fetchedAt || 0)) > CACHE_EXPIRY_MS`. -/
def expiredPred (now : Int) (e : StoreEntry) : Bool :=
  now - fetchedAtD e > CACHE_EXPIRY_MS

/-- The `toDelete` list of the sweep: the expired records, extended with
`entries.slice(toDelete.length, toDelete.length + excessCount)` when the
unexpired remainder exceeds the bound. -/
def cleanupToDelete (now : Int) (entries : List StoreEntry) : List StoreEntry :=
  let sorted := sortByFetchedAt entries
  let toDelete := sorted.filter (expiredPred now)
  let excessCount : Int :=
    (sorted.length : Int) - toDelete.length - (CACHE_MAX_ENTRIES : Int)
  if 0 < excessCount then
    toDelete ++ (sorted.drop toDelete.length).take excessCount.toNat
  else toDelete

/-- The records remaining in the store after the sweep (every key in
`toDelete` deleted), listed in `fetchedAt` order. -/
def cleanupRetained (now : Int) (entries : List StoreEntry) : List StoreEntry :=
  (sortByFetchedAt entries).filter
    (fun e => !((cleanupToDelete now entries).map Prod.fst).contains e.1)

/-- The unexpired records in `fetchedAt` order. -/
def unexpiredSorted (now : Int) (entries : List StoreEntry) : List StoreEntry :=
  (sortByFetchedAt entries).filter (fun e => !expiredPred now e)

/-! ## Scheduler lemmas and claim C4 -/

theorem processQueue_active_le {s : SchedState}
    (h : s.active ≤ MAX_CONCURRENT_FETCHES) :
    (processQueue s).1.active ≤ MAX_CONCURRENT_FETCHES := by
  by_cases hge : s.active ≥ MAX_CONCURRENT_FETCHES
  · simpa [processQueue, hge] using h
  · cases hq : s.queue with
    | nil => simpa [processQueue, hge, hq] using h
    | cons a l =>
      simp only [processQueue, hge, if_false, hq]
      omega

theorem schedActive_le {s : SchedState} (h : SchedReachable s) :
    s.active ≤ MAX_CONCURRENT_FETCHES := by
  induction h with
  | init => decide
  | step _ hs ih =>
    cases hs with
    | enqueue t => exact processQueue_active_le ih
    | complete hlt =>
      exact processQueue_active_le (Nat.le_trans (Nat.sub_le _ _) ih)

/-- C4: in every reachable scheduler state at most `MAX_CONCURRENT_FETCHES`
(= 4) tasks are running; a completion in a state with a non-empty queue
admits a task; and any admission takes exactly the head of the queue,
leaving its tail — so tasks queued while at capacity are admitted in
submission order. -/
theorem claimC4 (s : SchedState) (hs : SchedReachable s) :
    s.active ≤ MAX_CONCURRENT_FETCHES
    ∧ (0 < s.active → s.queue ≠ [] → ((completeTask s).2).isSome = true)
    ∧ (∀ x, (processQueue s).2 = some x →
        s.queue.head? = some x ∧ (processQueue s).1.queue = s.queue.tail) := by
  have hle := schedActive_le hs
  refine ⟨hle, ?_, ?_⟩
  · intro hpos hq
    have hlt : ¬ (s.active - 1 ≥ MAX_CONCURRENT_FETCHES) := by
      unfold MAX_CONCURRENT_FETCHES at hle ⊢; omega
    cases hqq : s.queue with
    | nil => exact absurd hqq hq
    | cons a l => simp [completeTask, processQueue, hlt, hqq]
  · intro x hx
    by_cases hge : s.active ≥ MAX_CONCURRENT_FETCHES
    · simp [processQueue, hge] at hx
    · cases hq : s.queue with
      | nil => simp [processQueue, hge, hq] at hx
      | cons a l =>
        simp only [processQueue, hge, if_false, hq] at hx ⊢
        simp at hx
        simp [hx]

theorem claimC4_witness :
    (⟨0, []⟩ : SchedState).active ≤ MAX_CONCURRENT_FETCHES :=
  (claimC4 ⟨0, []⟩ SchedReachable.init).1

/-! ## Claim C10: malformed payload shapes -/

/-- C10: on a payload that is JSON `null`, or whose `features` field is
missing or not an array, the summarizer returns the empty summary
`{counts: {}, examples: {}, total: 0}` and the address indexer returns
(`some`, i.e. without throwing) the empty index. -/
theorem claimC10 (g : Geojson) (h : featuresArrayOf g = none) :
    summarizeGeoJSON g = ⟨[], [], 0⟩ ∧ indexGeojsonAddresses g = some [] := by
  constructor
  · unfold summarizeGeoJSON
    rw [h]
  · unfold indexGeojsonAddresses
    rw [h]

theorem claimC10_witness :
    summarizeGeoJSON .jnull = ⟨[], [], 0⟩
    ∧ indexGeojsonAddresses .jnull = some [] :=
  claimC10 .jnull rfl

/-! ## The try-candidates loop: characterization and claims C1, C2, C3, C6 -/

theorem getLast?_cons_eq {α : Type} (a : α) (l : List α) :
    (a :: l).getLast? = some (l.getLast?.getD a) := by
  induction l generalizing a with
  | nil => rfl
  | cons b m ih =>
    rw [List.getLast?_cons_cons, ih b]
    rfl

/-- Full characterization of the try-candidates loop, generalized over the
accumulated `lastErr`. -/
theorem tryFetchLoop_spec (now : Int) (writeOk : Bool) :
    ∀ (outs : List (String × FetchOutcome)) (lastErr : Option LookupErr),
    tryFetchLoop now writeOk outs lastErr =
      match firstGoodSuccess outs with
      | some (url, d) =>
        ⟨.ok d, if writeOk then some (entryFor now url d) else none⟩
      | none =>
        ⟨.error (((outs.filterMap fun p => candErr p.1 p.2).getLast?).getD
          (lastErr.getD .noCandidate)), none⟩
  | [], lastErr => by simp [tryFetchLoop, firstGoodSuccess]
  | (url, out) :: rest, lastErr => by
    cases out with
    | httpError s =>
      rw [tryFetchLoop, tryFetchLoop_spec now writeOk rest (some (.httpStatus s url))]
      cases hfs : firstGoodSuccess rest with
      | some p =>
        simp only [firstGoodSuccess, hfs]
      | none =>
        simp only [firstGoodSuccess, hfs, List.filterMap_cons, candErr,
          getLast?_cons_eq, Option.getD_some]
    | thrown m =>
      rw [tryFetchLoop, tryFetchLoop_spec now writeOk rest (some (.thrownErr m))]
      cases hfs : firstGoodSuccess rest with
      | some p =>
        simp only [firstGoodSuccess, hfs]
      | none =>
        simp only [firstGoodSuccess, hfs, List.filterMap_cons, candErr,
          getLast?_cons_eq, Option.getD_some]
    | success d =>
      cases d with
      | jnull =>
        rw [tryFetchLoop, tryFetchLoop_spec now writeOk rest (some (.thrownErr "TypeError"))]
        cases hfs : firstGoodSuccess rest with
        | some p =>
          simp only [firstGoodSuccess, hfs]
        | none =>
          simp only [firstGoodSuccess, hfs, List.filterMap_cons, candErr,
            getLast?_cons_eq, Option.getD_some]
      | obj o => rfl

/-- C1, counterexample to the claim as stated: for the single candidate
`"u"` whose fetch has an ok HTTP status and whose body parses to JSON
`null`, `firstSuccess` reports a first success, yet the loop neither
returns nor persists that payload — building `cachedObj` reads
`data.generated` on `null`, throws, and the error is recorded instead
(here it becomes the task's failure, there being no further candidate). -/
theorem claimC1_counterexample :
    firstSuccess [("u", .success .jnull)] = some ("u", Geojson.jnull)
    ∧ (tryFetchLoop 0 true [("u", .success .jnull)] none).result
        = .error (.thrownErr "TypeError")
    ∧ (tryFetchLoop 0 true [("u", .success .jnull)] none).written = none := by
  refine ⟨rfl, rfl, rfl⟩

/-- C1 (amended): the candidates are tried strictly in order; every failed
attempt (non-ok HTTP status, thrown network/parse error, or a parsed
payload of JSON `null`, on which building the cache record throws) records
its error and moves to the next candidate; on the first attempt that
succeeds with a non-`null` payload the payload is persisted as a cache
entry (when the best-effort write succeeds) and returned; if every
candidate fails, the task fails with the last recorded error, or the
generic `'No candidate returned'` error when none was recorded. -/
theorem claimC1 (now : Int) (writeOk : Bool)
    (outs : List (String × FetchOutcome)) :
    tryFetchLoop now writeOk outs none =
      match firstGoodSuccess outs with
      | some (url, d) =>
        ⟨.ok d, if writeOk then some (entryFor now url d) else none⟩
      | none => ⟨.error ((lastRecordedErr outs).getD .noCandidate), none⟩ := by
  rw [tryFetchLoop_spec]
  rfl

/-- The cache-hit test at the top of `fetchSuburbGeoJSON`: the payload
served from cache, if any. -/
def cacheFresh (now : Int) (read : ReadResult) (force : Bool) : Option Geojson :=
  match read with
  | .got (some cached) =>
    if force then none
    else if now - (cached.fetchedAt.getD 0) < CACHE_TTL_MS then some cached.data
    else none
  | _ => none

theorem fetchSuburb_eq (now : Int) (read : ReadResult) (force : Bool)
    (outs : List (String × FetchOutcome)) (writeOk : Bool) :
    fetchSuburbGeoJSON now read force outs writeOk =
      match cacheFresh now read force with
      | some d => ⟨.ok d, none, false⟩
      | none => ⟨(tryFetchLoop now writeOk outs none).result,
                 (tryFetchLoop now writeOk outs none).written, true⟩ := rfl

/-- C2: with `forceRefresh=false` and a cached record written at `t0`, the
cached payload is returned with no fetch exactly when `now - t0 <
CACHE_TTL_MS`; at or past the TTL, and likewise when no record exists, the
candidate fetch stage runs. -/
theorem claimC2 (now t0 : Int) (entry : CacheEntry)
    (outs : List (String × FetchOutcome)) (writeOk : Bool)
    (hfa : entry.fetchedAt = some t0) :
    ((fetchSuburbGeoJSON now (.got (some entry)) false outs writeOk).fetched = false
      ↔ now - t0 < CACHE_TTL_MS)
    ∧ (now - t0 < CACHE_TTL_MS →
        fetchSuburbGeoJSON now (.got (some entry)) false outs writeOk
          = ⟨.ok entry.data, none, false⟩)
    ∧ (fetchSuburbGeoJSON now (.got none) false outs writeOk).fetched = true := by
  have hc : cacheFresh now (.got (some entry)) false
      = if now - t0 < CACHE_TTL_MS then some entry.data else none := by
    simp [cacheFresh, hfa]
  by_cases h : now - t0 < CACHE_TTL_MS
  · rw [if_pos h] at hc
    rw [fetchSuburb_eq, fetchSuburb_eq, hc]
    exact ⟨by simp [h], fun _ => rfl, rfl⟩
  · rw [if_neg h] at hc
    rw [fetchSuburb_eq, fetchSuburb_eq, hc]
    exact ⟨by simp [h], fun hlt => absurd hlt h, rfl⟩

theorem claimC2_witness :
    ((fetchSuburbGeoJSON 1 (.got (some ⟨some 0, none, "u", .jnull⟩))
        false [] true).fetched = false ↔ (1 : Int) - 0 < CACHE_TTL_MS)
    ∧ ((1 : Int) - 0 < CACHE_TTL_MS →
        fetchSuburbGeoJSON 1 (.got (some ⟨some 0, none, "u", .jnull⟩)) false [] true
          = ⟨.ok .jnull, none, false⟩)
    ∧ (fetchSuburbGeoJSON 1 (.got none) false [] true).fetched = true :=
  claimC2 1 0 ⟨some 0, none, "u", .jnull⟩ [] true rfl

/-- C3: with `forceRefresh=true` the candidate fetch stage runs whatever
the state of the cache; on the first good success the cache record is
wholesale replaced by the freshly built record (when the best-effort write
succeeds), whose `fetchedAt` is the current time. -/
theorem claimC3 (now : Int) (read : ReadResult)
    (outs : List (String × FetchOutcome)) (writeOk : Bool)
    (url : String) (d : Geojson)
    (hs : firstGoodSuccess outs = some (url, d)) :
    (fetchSuburbGeoJSON now read true outs writeOk).fetched = true
    ∧ (fetchSuburbGeoJSON now read true outs writeOk).result = .ok d
    ∧ (writeOk = true →
        (fetchSuburbGeoJSON now read true outs writeOk).written
          = some (entryFor now url d))
    ∧ (entryFor now url d).fetchedAt = some now := by
  have hch : cacheFresh now read true = none := by
    cases read with
    | got e => cases e <;> simp [cacheFresh]
    | readError => rfl
  have hloop := tryFetchLoop_spec now writeOk outs none
  rw [hs] at hloop
  rw [fetchSuburb_eq, hch, hloop]
  refine ⟨rfl, rfl, fun hw => ?_, rfl⟩
  simp [hw]

theorem claimC3_witness :
    (fetchSuburbGeoJSON 5 (.got none) true
        [("u", .success (.obj ⟨.missing, none, none⟩))] true).fetched = true
    ∧ (fetchSuburbGeoJSON 5 (.got none) true
        [("u", .success (.obj ⟨.missing, none, none⟩))] true).result
      = .ok (.obj ⟨.missing, none, none⟩)
    ∧ (true = true →
        (fetchSuburbGeoJSON 5 (.got none) true
            [("u", .success (.obj ⟨.missing, none, none⟩))] true).written
          = some (entryFor 5 "u" (.obj ⟨.missing, none, none⟩)))
    ∧ (entryFor 5 "u" (.obj ⟨.missing, none, none⟩)).fetchedAt = some 5 :=
  claimC3 5 (.got none) [("u", .success (.obj ⟨.missing, none, none⟩))] true
    "u" (.obj ⟨.missing, none, none⟩) rfl

/-- C6: a failed cache read behaves exactly like a cache miss; a failed
cache write never changes the value returned or error thrown; and the
only error a lookup can surface is the candidates-exhausted error (the
last recorded candidate error, or the generic one). -/
theorem claimC6 (now : Int) (read : ReadResult) (force : Bool)
    (outs : List (String × FetchOutcome)) (writeOk : Bool) :
    fetchSuburbGeoJSON now .readError force outs writeOk
      = fetchSuburbGeoJSON now (.got none) force outs writeOk
    ∧ (fetchSuburbGeoJSON now read force outs false).result
      = (fetchSuburbGeoJSON now read force outs true).result
    ∧ (∀ e, (fetchSuburbGeoJSON now read force outs writeOk).result = .error e →
        firstGoodSuccess outs = none
        ∧ e = (lastRecordedErr outs).getD .noCandidate) := by
  have hfalse := tryFetchLoop_spec now false outs none
  have htrue := tryFetchLoop_spec now true outs none
  have hw := tryFetchLoop_spec now writeOk outs none
  refine ⟨rfl, ?_, ?_⟩
  · rw [fetchSuburb_eq, fetchSuburb_eq]
    cases hch : cacheFresh now read force with
    | some d => rfl
    | none =>
      cases hfs : firstGoodSuccess outs with
      | some p =>
        obtain ⟨url, d⟩ := p
        rw [hfs] at hfalse htrue
        rw [hfalse, htrue]
      | none =>
        rw [hfs] at hfalse htrue
        rw [hfalse, htrue]
  · intro e he
    rw [fetchSuburb_eq] at he
    cases hch : cacheFresh now read force with
    | some d => rw [hch] at he; exact absurd he (by simp)
    | none =>
      rw [hch] at he
      cases hfs : firstGoodSuccess outs with
      | some p =>
        obtain ⟨url, d⟩ := p
        rw [hfs] at hw
        rw [hw] at he
        exact absurd he (by simp)
      | none =>
        rw [hfs] at hw
        rw [hw] at he
        simp only [Except.error.injEq] at he
        exact ⟨rfl, he.symm⟩

theorem claimC6_witness :
    firstGoodSuccess [("u", FetchOutcome.httpError 404)] = none
    ∧ LookupErr.httpStatus 404 "u"
      = (lastRecordedErr [("u", FetchOutcome.httpError 404)]).getD .noCandidate :=
  (claimC6 0 (.got none) false [("u", .httpError 404)] true).2.2
    (.httpStatus 404 "u") rfl

/-! ## The address index: claim C7 -/

/-- The key under which a feature is indexed, if it has a truthy string
address (a truthy array address makes the construction throw instead, so
an index only ever exists for collections without one). -/
def featKey (f : Feature) : Option String :=
  match addressValOf f with
  | some (.str s) => some (normalizeAddress s)
  | _ => none

/-- The last feature in collection order indexed under key `k`. -/
def lastMatch (k : String) (fs : List Feature) : Option Feature :=
  (fs.filter (fun f => featKey f == some k)).getLast?

theorem mapGet_mapSet (k k' : String) (v : Feature) (idx : AddrIndex) :
    mapGet k (mapSet k' v idx) = if k' = k then some v else mapGet k idx := by
  induction idx with
  | nil => simp [mapSet, mapGet]
  | cons p rest ih =>
    obtain ⟨k2, v2⟩ := p
    by_cases h2 : k2 = k'
    · subst h2
      by_cases hk : k2 = k
      · simp [mapSet, mapGet, hk]
      · simp [mapSet, mapGet, hk]
    · by_cases hk : k2 = k
      · subst hk
        have : ¬ k' = k2 := fun h => h2 h.symm
        simp [mapSet, mapGet, h2, this]
      · simp [mapSet, mapGet, h2, hk, ih]

theorem mapGet_buildIndex (k : String) :
    ∀ (fs : List Feature) (idx0 idx : AddrIndex),
    fs.foldlM indexStep idx0 = some idx →
    mapGet k idx = (lastMatch k fs).orElse (fun _ => mapGet k idx0)
  | [], idx0, idx => by
    intro h
    simp only [List.foldlM_nil, pure, Option.some.injEq] at h
    subst h
    simp [lastMatch]
  | f :: rest, idx0, idx => by
    intro h
    rw [List.foldlM_cons] at h
    cases hstep0 : indexStep idx0 f with
    | none =>
      rw [hstep0] at h
      simp at h
    | some s =>
      rw [hstep0] at h
      simp only [Option.bind_eq_bind, Option.some_bind] at h
      rw [mapGet_buildIndex k rest s idx h]
      have hstep : mapGet k s
          = if featKey f == some k then some f else mapGet k idx0 := by
        cases hv : addressValOf f with
        | none =>
          simp only [indexStep, hv, Option.some.injEq] at hstep0
          subst hstep0
          simp [featKey, hv]
        | some v =>
          cases v with
          | str str =>
            simp only [indexStep, hv, Option.some.injEq] at hstep0
            subst hstep0
            rw [mapGet_mapSet]
            simp only [featKey, hv]
            by_cases he : normalizeAddress str = k <;> simp [he]
          | arr xs => simp [indexStep, hv] at hstep0
      have hlast : lastMatch k (f :: rest)
          = (lastMatch k rest).orElse
              (fun _ => if featKey f == some k then some f else none) := by
        unfold lastMatch
        rw [List.filter_cons]
        by_cases hp : (featKey f == some k) = true
        · rw [if_pos hp, getLast?_cons_eq, hp]
          cases hl : (rest.filter (fun f => featKey f == some k)).getLast? <;> simp
        · simp only [hp, if_neg, Bool.false_eq_true, not_false_eq_true, if_false]
          cases hl : (rest.filter (fun f => featKey f == some k)).getLast? <;>
            simp [Bool.not_eq_true] at hp <;> simp [hp]
      rw [hstep, hlast]
      cases hl : lastMatch k rest with
      | some x => simp
      | none =>
        by_cases hp : (featKey f == some k) = true <;> simp [hp]

/-- C7, counterexample to the claim as stated: the collection holding the
single feature with address `"."` is indexed under the normalized key
`""`; for the query `""` the claim's exact-key lookup finds that feature,
but `matchListingAddressToFeature` returns `null` without looking up,
because a falsy query short-circuits. -/
theorem claimC7_counterexample :
    indexGeojsonAddresses
        (.obj ⟨.arr [⟨[("full_address", .str ".")], none⟩], none, none⟩)
      = some [("", ⟨[("full_address", .str ".")], none⟩)]
    ∧ mapGet (normalizeAddress "")
        [("", ⟨[("full_address", .str ".")], none⟩)]
      = some ⟨[("full_address", .str ".")], none⟩
    ∧ matchListingAddressToFeature ""
        [("", ⟨[("full_address", .str ".")], none⟩)] = none := by
  exact ⟨by decide, by decide, rfl⟩

/-- The collapsed error path, concretely: a truthy array-valued address
reaches `normalizeAddress`, where `addr.toLowerCase()` throws an uncaught
`TypeError`, so no index is produced. -/
example :
    indexGeojsonAddresses
        (.obj ⟨.arr [⟨[("address", .arr ["x", "y"])], none⟩], none, none⟩)
      = none := by
  decide

/-- C7 (amended): whenever the index construction completes without
throwing (it throws a `TypeError` at the first truthy array-valued
address), matching a non-empty query normalizes it with the same
`normalizeAddress` used to build the index and performs an exact-key
lookup, returning the last record in collection order whose normalized
address equals the normalized query, and `none` (not an error) when no
record does; an empty (falsy) query returns `none` without performing the
lookup. -/
theorem claimC7 (g : Geojson) (q : String) (idx : AddrIndex)
    (hidx : indexGeojsonAddresses g = some idx) (hq : q ≠ "") :
    matchListingAddressToFeature q idx
      = lastMatch (normalizeAddress q) (featuresOf g)
    ∧ matchListingAddressToFeature "" idx = none := by
  refine ⟨?_, rfl⟩
  unfold matchListingAddressToFeature
  rw [if_neg hq]
  unfold indexGeojsonAddresses at hidx
  cases hfa : featuresArrayOf g with
  | none =>
    rw [hfa] at hidx
    simp only [Option.some.injEq] at hidx
    subst hidx
    simp [featuresOf, hfa, lastMatch, mapGet]
  | some fs =>
    rw [hfa] at hidx
    rw [mapGet_buildIndex (normalizeAddress q) fs [] idx hidx]
    simp [featuresOf, hfa, mapGet]

theorem claimC7_witness :
    matchListingAddressToFeature "12 Smith Street"
        [("12 smith street", ⟨[("address", .str "12 Smith St")], none⟩)]
      = lastMatch (normalizeAddress "12 Smith Street")
          (featuresOf (.obj ⟨.arr [⟨[("address", .str "12 Smith St")], none⟩], none, none⟩))
    ∧ matchListingAddressToFeature ""
        [("12 smith street", ⟨[("address", .str "12 Smith St")], none⟩)]
      = none :=
  claimC7 (.obj ⟨.arr [⟨[("address", .str "12 Smith St")], none⟩], none, none⟩)
    "12 Smith Street"
    [("12 smith street", ⟨[("address", .str "12 Smith St")], none⟩)]
    (by decide) (by decide)

/-! ## The summarizer examples: claim C8 -/

/-- Object property lookup on the insertion-ordered association list. -/
def lookupVal (k : String) : List (String × PropVal) → Option PropVal
  | [] => none
  | (k', v) :: rest => if k' = k then some v else lookupVal k rest

/-- The examples accumulator of the summarizer's pass, on its own. -/
def foldExamples (fs : List Feature) (exs : List (String × PropVal)) :
    List (String × PropVal) :=
  fs.foldl (fun exs f => setIfFalsy (catOf f) (exampleVal f) exs) exs

/-- The first truthy example value among the features of category `cat`,
in collection order. -/
def firstTruthyExample (cat : String) (fs : List Feature) : Option PropVal :=
  (((fs.filter (fun f => catOf f == cat)).map exampleVal).filter
    (fun t => t.truthy)).head?

/-- The example the summarizer records for `cat`: absent when no feature
has that category; otherwise the first truthy example value of the
category, or `''` when every one is falsy. -/
def specExample (cat : String) (fs : List Feature) : Option PropVal :=
  if (fs.filter (fun f => catOf f == cat)).isEmpty then none
  else some ((firstTruthyExample cat fs).getD (.str ""))

/-- The only falsy property value is the empty string (arrays, including
the empty array, are truthy). -/
theorem PropVal.eq_empty_of_not_truthy {e : PropVal} (h : e.truthy = false) :
    e = .str "" := by
  cases e with
  | str s =>
    simp [PropVal.truthy] at h
    simp [h]
  | arr xs => simp [PropVal.truthy] at h

theorem lookupVal_setIfFalsy (cat k : String) (v : PropVal)
    (m : List (String × PropVal)) :
    lookupVal cat (setIfFalsy k v m)
      = if k = cat then
          (match lookupVal cat m with
           | none => some v
           | some e => if e.truthy then some e else some v)
        else lookupVal cat m := by
  induction m with
  | nil => simp [setIfFalsy, lookupVal]
  | cons p rest ih =>
    obtain ⟨k2, e2⟩ := p
    by_cases h2 : k2 = k
    · subst h2
      by_cases hc : k2 = cat
      · subst hc
        by_cases he : e2.truthy = true <;> simp [setIfFalsy, lookupVal, he]
      · by_cases he : e2.truthy = true <;> simp [setIfFalsy, lookupVal, he, hc]
    · by_cases hc : k2 = cat
      · subst hc
        have : ¬ k = k2 := fun h => h2 h.symm
        simp [setIfFalsy, lookupVal, h2, this]
      · simp [setIfFalsy, lookupVal, h2, hc, ih]

theorem lookupVal_foldExamples (cat : String) :
    ∀ (fs : List Feature) (exs : List (String × PropVal)),
    lookupVal cat (foldExamples fs exs)
      = match lookupVal cat exs with
        | none => specExample cat fs
        | some e =>
          if e.truthy then some e
          else some ((firstTruthyExample cat fs).getD (.str ""))
  | [], exs => by
    cases h : lookupVal cat exs with
    | none => simp [foldExamples, specExample, h]
    | some e =>
      by_cases he : e.truthy = true
      · simp [foldExamples, h, he]
      · have he' : e = .str "" :=
          PropVal.eq_empty_of_not_truthy (Bool.not_eq_true _ ▸ he)
        simp [foldExamples, specExample, firstTruthyExample, h, he, he']
  | f :: rest, exs => by
    have hfold : foldExamples (f :: rest) exs
        = foldExamples rest (setIfFalsy (catOf f) (exampleVal f) exs) := rfl
    rw [hfold, lookupVal_foldExamples cat rest, lookupVal_setIfFalsy]
    by_cases hcf : catOf f = cat
    · have hbeq : (catOf f == cat) = true := by simp [hcf]
      have hfilter : (f :: rest).filter (fun f => catOf f == cat)
          = f :: rest.filter (fun f => catOf f == cat) := by
        simp [List.filter_cons, hbeq]
      have hne : firstTruthyExample cat (f :: rest)
          = if (exampleVal f).truthy = true then some (exampleVal f)
            else firstTruthyExample cat rest := by
        unfold firstTruthyExample
        rw [hfilter, List.map_cons, List.filter_cons]
        by_cases he : (exampleVal f).truthy = true <;> simp [he]
      cases hx : lookupVal cat exs with
      | none =>
        simp only [hcf, if_pos rfl, hx]
        by_cases he : (exampleVal f).truthy = true <;>
          simp [he, specExample, hfilter, hne, firstTruthyExample]
      | some e =>
        by_cases he2 : e.truthy = true
        · simp [hcf, hx, he2]
        · simp only [hcf, if_pos rfl, hx, he2, Bool.false_eq_true, if_false,
            if_neg]
          by_cases he : (exampleVal f).truthy = true <;> simp [he, he2, hne]
    · have hbeq : (catOf f == cat) = false := by simp [hcf]
      have hfilter : (f :: rest).filter (fun f => catOf f == cat)
          = rest.filter (fun f => catOf f == cat) := by
        simp [List.filter_cons, hbeq]
      have hne : firstTruthyExample cat (f :: rest)
          = firstTruthyExample cat rest := by
        unfold firstTruthyExample; rw [hfilter]
      simp [hcf, specExample, hfilter, hne]

/-- The examples component of the summary is the examples fold. -/
theorem summarize_examples_eq (fs : List Feature)
    (g : Geojson) (h : featuresArrayOf g = some fs) :
    (summarizeGeoJSON g).examples = foldExamples fs [] := by
  unfold summarizeGeoJSON
  rw [h]
  simp only [foldExamples]
  suffices hgen : ∀ (fs : List Feature) (c : List (String × Nat))
      (e : List (String × PropVal)),
      (fs.foldl (fun (acc : List (String × Nat) × List (String × PropVal)) f =>
        (bump (catOf f) acc.1, setIfFalsy (catOf f) (exampleVal f) acc.2)) (c, e)).2
      = fs.foldl (fun exs f => setIfFalsy (catOf f) (exampleVal f) exs) e by
    exact hgen fs [] []
  intro fs
  induction fs with
  | nil => intro c e; rfl
  | cons f rest ih => intro c e; exact ih _ _

/-- C8, counterexample to the claim as stated: in the two-feature
collection whose first feature (category `Non-NBN`) has no address and no
geometry — recorded example `''` — and whose second feature of the same
category has address `"A"`, the recorded example is `"A"`, taken from the
*second* feature: the first occurrence's empty example is falsy, so
`if (!examples[type])` lets the later feature replace it. -/
theorem claimC8_counterexample :
    catOf ⟨[], none⟩ = "Non-NBN"
    ∧ catOf ⟨[("full_address", .str "A")], none⟩ = "Non-NBN"
    ∧ exampleVal ⟨[], none⟩ = .str ""
    ∧ lookupVal "Non-NBN"
        (summarizeGeoJSON (.obj ⟨.arr [⟨[], none⟩,
          ⟨[("full_address", .str "A")], none⟩], none, none⟩)).examples
      = some (.str "A") := by
  refine ⟨by decide, by decide, by decide, by decide⟩

/-- The raw value is what the guard tests: a truthy empty-array address is
recorded and kept even though its text is empty — a later feature of the
category does not replace it. -/
example :
    lookupVal "Non-NBN"
      (summarizeGeoJSON (.obj ⟨.arr [⟨[("full_address", .arr [])], none⟩,
        ⟨[("full_address", .str "A")], none⟩], none, none⟩)).examples
      = some (.arr []) := by
  decide

/-- C8 (amended): for every category, the recorded example is the first
truthy example value (the raw address value — the first truthy entry of
the address-key chain, arrays included — else the geometry fingerprint
when geometry is truthy) among that category's features in collection
order — or `''` when every such feature yields a falsy (empty-string)
example; a falsy recorded example is overwritten by each later feature of
the category until a truthy value occurs.  No example is recorded for a
category with no features. -/
theorem claimC8 (g : Geojson) (cat : String) :
    lookupVal cat (summarizeGeoJSON g).examples
      = specExample cat (featuresOf g) := by
  cases hfa : featuresArrayOf g with
  | none =>
    have h1 : (summarizeGeoJSON g).examples = [] := by
      unfold summarizeGeoJSON; rw [hfa]
    have h2 : featuresOf g = [] := by unfold featuresOf; rw [hfa]; rfl
    rw [h1, h2]
    simp [lookupVal, specExample]
  | some fs =>
    have h2 : featuresOf g = fs := by unfold featuresOf; rw [hfa]; rfl
    rw [summarize_examples_eq fs g hfa, h2, lookupVal_foldExamples]
    rfl

/-! ## Idempotence of the slug normalizer: claim C9

Every character of a `toRepoSlug` output is a lowercase letter, a digit,
or `-`, and no two `-` are adjacent; on such strings every stage of the
pipeline is the identity. -/

/-- The output alphabet of the slug pipeline. -/
def goodChar (c : Char) : Bool := c.isLower || c.isDigit || c = '-'

theorem goodChar_toNat {c : Char} (h : goodChar c = true) :
    (97 ≤ c.toNat ∧ c.toNat ≤ 122) ∨ (48 ≤ c.toNat ∧ c.toNat ≤ 57) ∨ c = '-' := by
  simp [goodChar, Char.isLower, Char.isDigit] at h
  tauto

theorem toLower_eq_self {c : Char} (h : ¬(65 ≤ c.toNat ∧ c.toNat ≤ 90)) :
    Char.toLower c = c := by
  unfold Char.toLower
  rw [if_neg h]

theorem goodChar_toLower {c : Char} (h : goodChar c = true) : Char.toLower c = c := by
  rcases goodChar_toNat h with h | h | h
  · exact toLower_eq_self (by omega)
  · exact toLower_eq_self (by omega)
  · subst h; decide

theorem goodChar_notSpace {c : Char} (h : goodChar c = true) : jsIsSpace c = false := by
  rcases goodChar_toNat h with h | h | h
  · have h1 : c ≠ ' ' := fun he => by subst he; revert h; decide
    have h2 : c ≠ '\t' := fun he => by subst he; revert h; decide
    have h3 : c ≠ '\r' := fun he => by subst he; revert h; decide
    have h4 : c ≠ '\n' := fun he => by subst he; revert h; decide
    simp [jsIsSpace, Char.isWhitespace, h1, h2, h3, h4]
  · have h1 : c ≠ ' ' := fun he => by subst he; revert h; decide
    have h2 : c ≠ '\t' := fun he => by subst he; revert h; decide
    have h3 : c ≠ '\r' := fun he => by subst he; revert h; decide
    have h4 : c ≠ '\n' := fun he => by subst he; revert h; decide
    simp [jsIsSpace, Char.isWhitespace, h1, h2, h3, h4]
  · subst h; decide

theorem goodChar_notAmp {c : Char} (h : goodChar c = true) : c ≠ '&' := by
  rcases goodChar_toNat h with h | h | h
  · intro he; subst he; exact absurd h (by decide)
  · intro he; subst he; exact absurd h (by decide)
  · subst h; decide

theorem goodChar_notCombining {c : Char} (h : goodChar c = true) :
    isCombiningMark c = false := by
  rcases goodChar_toNat h with h | h | h
  · simp [isCombiningMark]; omega
  · simp [isCombiningMark]; omega
  · subst h; decide

theorem goodChar_slugKeep {c : Char} (h : goodChar c = true) : slugKeep c = true := by
  rcases goodChar_toNat h with h | h | h
  · simp [slugKeep, Char.isLower, Char.isDigit]; tauto
  · simp [slugKeep, Char.isLower, Char.isDigit]; tauto
  · subst h; decide

theorem slugKeep_not_space_good {c : Char} (h1 : slugKeep c = true)
    (h2 : jsIsSpace c = false) : goodChar c = true := by
  simp [slugKeep, h2] at h1
  simp [goodChar]
  tauto

theorem collapseRuns_mem (p : Char → Bool) (r : Char) (b : Bool) (l : List Char)
    (c : Char) (hc : c ∈ collapseRuns p r b l) : c = r ∨ (c ∈ l ∧ p c = false) := by
  induction l generalizing b with
  | nil => simp [collapseRuns] at hc
  | cons a cs ih =>
    by_cases hp : p a = true
    · cases b with
      | true =>
        rw [collapseRuns, if_pos hp, if_pos rfl] at hc
        rcases ih true hc with h | ⟨h1, h2⟩
        · exact Or.inl h
        · exact Or.inr ⟨List.mem_cons_of_mem _ h1, h2⟩
      | false =>
        rw [collapseRuns, if_pos hp] at hc
        simp only [Bool.false_eq_true, if_false] at hc
        rcases List.mem_cons.mp hc with h | h
        · exact Or.inl h
        · rcases ih true h with h' | ⟨h1, h2⟩
          · exact Or.inl h'
          · exact Or.inr ⟨List.mem_cons_of_mem _ h1, h2⟩
    · rw [collapseRuns, if_neg hp] at hc
      rcases List.mem_cons.mp hc with h | h
      · subst h
        exact Or.inr ⟨List.mem_cons_self _ _, Bool.not_eq_true _ ▸ hp⟩
      · rcases ih false h with h' | ⟨h1, h2⟩
        · exact Or.inl h'
        · exact Or.inr ⟨List.mem_cons_of_mem _ h1, h2⟩

/-- No two adjacent characters of the list both satisfy `p`. -/
def noAdjP (p : Char → Bool) : List Char → Bool
  | a :: b :: cs => !(p a && p b) && noAdjP p (b :: cs)
  | _ => true

theorem noAdjP_cons (p : Char → Bool) (a : Char) (l : List Char) :
    noAdjP p (a :: l) = true ↔
      noAdjP p l = true ∧ (∀ b, l.head? = some b → ¬(p a = true ∧ p b = true)) := by
  cases l with
  | nil => simp [noAdjP]
  | cons b cs =>
    show (!(p a && p b) && noAdjP p (b :: cs)) = true ↔ _
    constructor
    · intro h
      have h1 := (Bool.and_eq_true _ _).mp h
      refine ⟨h1.2, ?_⟩
      intro b' hb' ⟨hpa, hpb⟩
      cases hb'
      have := h1.1
      rw [hpa, hpb] at this
      simp at this
    · rintro ⟨h1, h2⟩
      have : (p a && p b) = false := by
        by_cases hpa : p a = true
        · by_cases hpb : p b = true
          · exact absurd ⟨hpa, hpb⟩ (h2 b rfl)
          · simp [Bool.not_eq_true _ ▸ hpb]
        · simp [Bool.not_eq_true _ ▸ hpa]
      rw [this, h1]
      rfl

theorem collapseRuns_true_head (p : Char → Bool) (r : Char) (l : List Char)
    (c : Char) (hc : (collapseRuns p r true l).head? = some c) : p c = false := by
  induction l with
  | nil => simp [collapseRuns] at hc
  | cons a cs ih =>
    by_cases hp : p a = true
    · rw [collapseRuns, if_pos hp, if_pos rfl] at hc
      exact ih hc
    · rw [collapseRuns, if_neg hp] at hc
      simp only [List.head?_cons, Option.some.injEq] at hc
      subst hc
      exact Bool.not_eq_true _ ▸ hp

theorem noAdjP_collapseRuns (p : Char → Bool) (r : Char) (b : Bool) (l : List Char) :
    noAdjP p (collapseRuns p r b l) = true := by
  induction l generalizing b with
  | nil => rfl
  | cons a cs ih =>
    by_cases hp : p a = true
    · cases b with
      | true => rw [collapseRuns, if_pos hp, if_pos rfl]; exact ih true
      | false =>
        rw [collapseRuns, if_pos hp]
        simp only [Bool.false_eq_true, if_false]
        rw [noAdjP_cons]
        refine ⟨ih true, ?_⟩
        intro b' hb' ⟨_, hpb⟩
        rw [collapseRuns_true_head p r cs b' hb'] at hpb
        cases hpb
    · rw [collapseRuns, if_neg hp]
      rw [noAdjP_cons]
      refine ⟨ih false, ?_⟩
      intro b' _ ⟨hpa, _⟩
      exact hp hpa

theorem collapseRuns_id_of_not (p : Char → Bool) (r : Char) (l : List Char)
    (h : ∀ c ∈ l, p c = false) : ∀ b, collapseRuns p r b l = l := by
  induction l with
  | nil => intro b; rfl
  | cons a cs ih =>
    intro b
    have hpa : ¬ (p a = true) := by
      rw [h a (List.mem_cons_self a cs)]; simp
    rw [collapseRuns, if_neg hpa,
      ih (fun c hc => h c (List.mem_cons_of_mem a hc)) false]

theorem collapseRuns_id_aux (p : Char → Bool) (r : Char)
    (hpr : ∀ c, p c = true → c = r) (l : List Char) (hadj : noAdjP p l = true) :
    collapseRuns p r false l = l
    ∧ ((∀ c, l.head? = some c → p c = false) → collapseRuns p r true l = l) := by
  induction l with
  | nil => exact ⟨rfl, fun _ => rfl⟩
  | cons a cs ih =>
    obtain ⟨hcs, hhead⟩ := (noAdjP_cons p a cs).mp hadj
    obtain ⟨ih1, ih2⟩ := ih hcs
    constructor
    · by_cases hp : p a = true
      · rw [collapseRuns, if_pos hp]
        simp only [Bool.false_eq_true, if_false]
        have hcs_eq : collapseRuns p r true cs = cs := by
          apply ih2
          intro c hc
          by_cases hpc : p c = true
          · exact absurd ⟨hp, hpc⟩ (hhead c hc)
          · exact Bool.not_eq_true _ ▸ hpc
        rw [hcs_eq, hpr a hp]
      · rw [collapseRuns, if_neg hp, ih1]
    · intro hh
      have hpa : ¬ (p a = true) := by
        rw [hh a rfl]; simp
      rw [collapseRuns, if_neg hpa, ih1]

theorem dropWhile_id_of (p : Char → Bool) (l : List Char)
    (h : ∀ c ∈ l, p c = false) : l.dropWhile p = l := by
  cases l with
  | nil => rfl
  | cons a cs =>
    rw [List.dropWhile_cons, h a (List.mem_cons_self a cs)]
    simp

theorem jsTrim_id_of {l : List Char} (h : ∀ c ∈ l, jsIsSpace c = false) :
    jsTrim l = l := by
  unfold jsTrim
  rw [dropWhile_id_of _ _ h,
    dropWhile_id_of _ _ (fun c hc => h c (List.mem_reverse.mp hc)),
    List.reverse_reverse]

theorem map_id_of {α : Type} (f : α → α) (l : List α) (h : ∀ c ∈ l, f c = c) :
    l.map f = l := by
  induction l with
  | nil => rfl
  | cons a cs ih =>
    rw [List.map_cons, h a (List.mem_cons_self a cs),
      ih (fun c hc => h c (List.mem_cons_of_mem a hc))]

theorem expandAmp_id {l : List Char} (h : ∀ c ∈ l, c ≠ '&') : expandAmp l = l := by
  induction l with
  | nil => rfl
  | cons a cs ih =>
    rw [expandAmp, if_neg (h a (List.mem_cons_self a cs)),
      ih (fun c hc => h c (List.mem_cons_of_mem a hc))]

theorem toRepoSlugChars_good (l : List Char) :
    ∀ c ∈ toRepoSlugChars l, goodChar c = true := by
  intro c hc
  unfold toRepoSlugChars at hc
  rcases collapseRuns_mem _ _ _ _ c hc with h | ⟨h1, _⟩
  · subst h; decide
  · rcases collapseRuns_mem _ _ _ _ c h1 with h' | ⟨h1', h2'⟩
    · subst h'; decide
    · exact slugKeep_not_space_good (List.of_mem_filter h1') h2'

theorem toRepoSlugChars_noAdj (l : List Char) :
    noAdjP (fun c => c = '-') (toRepoSlugChars l) = true := by
  unfold toRepoSlugChars
  exact noAdjP_collapseRuns _ _ _ _

/-- On a string over the output alphabet with no adjacent dashes, every
stage of the slug pipeline is the identity. -/
theorem toRepoSlugChars_id_of {m : List Char}
    (hgood : ∀ c ∈ m, goodChar c = true)
    (hadj : noAdjP (fun c => c = '-') m = true) :
    toRepoSlugChars m = m := by
  have htrim : jsTrim m = m :=
    jsTrim_id_of (fun c hc => goodChar_notSpace (hgood c hc))
  have hmap : m.map Char.toLower = m :=
    map_id_of _ _ (fun c hc => goodChar_toLower (hgood c hc))
  have hamp : expandAmp m = m :=
    expandAmp_id (fun c hc => goodChar_notAmp (hgood c hc))
  have hcomb : m.filter (fun c => !isCombiningMark c) = m :=
    List.filter_eq_self.mpr
      (fun c hc => by simp [goodChar_notCombining (hgood c hc)])
  have hkeep : m.filter slugKeep = m :=
    List.filter_eq_self.mpr (fun c hc => goodChar_slugKeep (hgood c hc))
  have hsp : collapseRuns jsIsSpace '-' false m = m :=
    collapseRuns_id_of_not _ _ _ (fun c hc => goodChar_notSpace (hgood c hc)) false
  unfold toRepoSlugChars
  rw [htrim, hmap, hamp, hcomb, hkeep, hsp]
  exact (collapseRuns_id_aux _ _ (fun c h => of_decide_eq_true h) m hadj).1

/-- C9: the slug normalizer is idempotent — `toRepoSlug (toRepoSlug T) =
toRepoSlug T` for all text `T`. -/
theorem claimC9 (s : String) : toRepoSlug (toRepoSlug s) = toRepoSlug s := by
  unfold toRepoSlug
  by_cases hs : s = ""
  · rw [if_pos hs]
    simp
  · rw [if_neg hs]
    by_cases ht : (⟨toRepoSlugChars s.data⟩ : String) = ""
    · rw [if_pos ht, ht]
    · rw [if_neg ht]
      rw [show (⟨toRepoSlugChars s.data⟩ : String).data = toRepoSlugChars s.data from rfl]
      exact congrArg (fun l => (⟨l⟩ : String))
        (toRepoSlugChars_id_of (toRepoSlugChars_good s.data)
          (toRepoSlugChars_noAdj s.data))

/-! ## The eviction sweep: claim C5

On a `fetchedAt`-sorted list, the expired records form a prefix, so the
sweep's `toDelete` is an initial segment of the sorted list, and the
retained set is the suffix of the unexpired records of length at most
`CACHE_MAX_ENTRIES`. -/

theorem expired_down (now : Int) (a b : StoreEntry) (hab : byFetchedAt a b)
    (hb : expiredPred now b = true) : expiredPred now a = true := by
  simp only [expiredPred, byFetchedAt, decide_eq_true_eq] at *
  unfold fetchedAtD at *
  omega

theorem filter_expired_eq_takeWhile (now : Int) :
    ∀ l : List StoreEntry, l.Sorted byFetchedAt →
      l.filter (expiredPred now) = l.takeWhile (expiredPred now) := by
  intro l hl
  induction l with
  | nil => rfl
  | cons a t ih =>
    rw [List.sorted_cons] at hl
    obtain ⟨ha, ht⟩ := hl
    by_cases hp : expiredPred now a = true
    · rw [List.filter_cons, List.takeWhile_cons]
      simp only [hp, if_true]
      rw [ih ht]
    · have hnone : t.filter (expiredPred now) = [] :=
        List.filter_eq_nil_iff.mpr
          (fun b hb hpb => hp (expired_down now a b (ha b hb) hpb))
      rw [List.filter_cons, List.takeWhile_cons]
      simp [hp, hnone]

theorem filter_unexpired_eq_dropWhile (now : Int) :
    ∀ l : List StoreEntry, l.Sorted byFetchedAt →
      l.filter (fun e => !expiredPred now e) = l.dropWhile (expiredPred now) := by
  intro l hl
  induction l with
  | nil => rfl
  | cons a t ih =>
    rw [List.sorted_cons] at hl
    obtain ⟨ha, ht⟩ := hl
    by_cases hp : expiredPred now a = true
    · rw [List.filter_cons, List.dropWhile_cons]
      simp only [hp, Bool.not_true, Bool.false_eq_true, if_false, if_true]
      exact ih ht
    · have hall : t.filter (fun e => !expiredPred now e) = t :=
        List.filter_eq_self.mpr (fun b hb => by
          by_cases hpb : expiredPred now b = true
          · exact absurd (expired_down now a b (ha b hb) hpb) hp
          · simp [hpb])
      rw [List.filter_cons, List.dropWhile_cons]
      simp [hp, hall]

theorem takeWhile_eq_take_length {α : Type} {p : α → Bool} (l : List α) :
    l.takeWhile p = l.take (l.takeWhile p).length := by
  induction l with
  | nil => rfl
  | cons a t ih =>
    rw [List.takeWhile_cons]
    by_cases hp : p a = true
    · simp only [hp, if_true, List.length_cons, List.take_succ_cons]
      rw [← ih]
    · simp [hp]

theorem dropWhile_eq_drop_length {α : Type} {p : α → Bool} (l : List α) :
    l.dropWhile p = l.drop (l.takeWhile p).length := by
  induction l with
  | nil => rfl
  | cons a t ih =>
    rw [List.dropWhile_cons, List.takeWhile_cons]
    by_cases hp : p a = true
    · simp only [hp, if_true, List.length_cons, List.drop_succ_cons]
      exact ih
    · simp [hp]

theorem cleanupToDelete_eq_take (now : Int) (entries : List StoreEntry) :
    cleanupToDelete now entries
      = (sortByFetchedAt entries).take
          (((sortByFetchedAt entries).takeWhile (expiredPred now)).length
            + (((sortByFetchedAt entries).dropWhile (expiredPred now)).length
               - CACHE_MAX_ENTRIES)) := by
  have hsort : (sortByFetchedAt entries).Sorted byFetchedAt :=
    List.sorted_insertionSort byFetchedAt entries
  have hlen : (sortByFetchedAt entries).length
      = ((sortByFetchedAt entries).takeWhile (expiredPred now)).length
        + ((sortByFetchedAt entries).dropWhile (expiredPred now)).length := by
    conv_lhs =>
      rw [← List.takeWhile_append_dropWhile (expiredPred now) (sortByFetchedAt entries)]
    rw [List.length_append]
  simp only [cleanupToDelete]
  rw [filter_expired_eq_takeWhile now (sortByFetchedAt entries) hsort]
  by_cases hexc : (0 : Int) < (sortByFetchedAt entries).length
      - ((sortByFetchedAt entries).takeWhile (expiredPred now)).length
      - CACHE_MAX_ENTRIES
  · rw [if_pos hexc]
    have hk : ((sortByFetchedAt entries).length
        - (((sortByFetchedAt entries).takeWhile (expiredPred now)).length : Int)
        - CACHE_MAX_ENTRIES).toNat
        = ((sortByFetchedAt entries).dropWhile (expiredPred now)).length
          - CACHE_MAX_ENTRIES := by
      omega
    rw [hk, List.take_add]
    congr 1
    exact takeWhile_eq_take_length _
  · rw [if_neg hexc]
    have hk : ((sortByFetchedAt entries).dropWhile (expiredPred now)).length
        - CACHE_MAX_ENTRIES = 0 := by
      omega
    rw [hk, Nat.add_zero]
    exact takeWhile_eq_take_length _

theorem filter_keys_complement {l : List StoreEntry} (m : Nat)
    (hnd : (l.map Prod.fst).Nodup) :
    l.filter (fun e => !((l.take m).map Prod.fst).contains e.1) = l.drop m := by
  have hnd2 := hnd
  rw [← List.take_append_drop m l, List.map_append] at hnd2
  obtain ⟨-, -, hdisj⟩ := List.nodup_append.mp hnd2
  have h1 : (l.take m).filter
      (fun e => !((l.take m).map Prod.fst).contains e.1) = [] := by
    apply List.filter_eq_nil_iff.mpr
    intro a ha
    have hm : a.1 ∈ (l.take m).map Prod.fst := List.mem_map_of_mem Prod.fst ha
    rw [List.map_take] at hm
    simp [List.elem_iff, hm]
  have h2 : (l.drop m).filter
      (fun e => !((l.take m).map Prod.fst).contains e.1) = l.drop m := by
    apply List.filter_eq_self.mpr
    intro a ha
    have hm : a.1 ∈ (l.drop m).map Prod.fst := List.mem_map_of_mem Prod.fst ha
    have hnotin : a.1 ∉ (l.take m).map Prod.fst := fun hc => hdisj hc hm
    rw [List.map_take] at hnotin
    simp [List.elem_iff, hnotin]
  calc l.filter (fun e => !((l.take m).map Prod.fst).contains e.1)
      = (l.take m ++ l.drop m).filter
          (fun e => !((l.take m).map Prod.fst).contains e.1) := by
        rw [List.take_append_drop]
    _ = (l.take m).filter (fun e => !((l.take m).map Prod.fst).contains e.1)
          ++ (l.drop m).filter
              (fun e => !((l.take m).map Prod.fst).contains e.1) :=
        List.filter_append _ _
    _ = [] ++ l.drop m := by rw [h1, h2]
    _ = l.drop m := List.nil_append _

theorem cleanupRetained_eq (now : Int) (entries : List StoreEntry)
    (hnd : (entries.map Prod.fst).Nodup) :
    cleanupRetained now entries
      = (unexpiredSorted now entries).drop
          ((unexpiredSorted now entries).length - CACHE_MAX_ENTRIES) := by
  have hsort : (sortByFetchedAt entries).Sorted byFetchedAt :=
    List.sorted_insertionSort byFetchedAt entries
  have hperm : List.Perm (sortByFetchedAt entries) entries :=
    List.perm_insertionSort byFetchedAt entries
  have hnds : ((sortByFetchedAt entries).map Prod.fst).Nodup :=
    ((hperm.map Prod.fst).nodup_iff).mpr hnd
  have hu : unexpiredSorted now entries
      = (sortByFetchedAt entries).dropWhile (expiredPred now) := by
    unfold unexpiredSorted
    exact filter_unexpired_eq_dropWhile now (sortByFetchedAt entries) hsort
  unfold cleanupRetained
  rw [cleanupToDelete_eq_take]
  rw [filter_keys_complement _ hnds]
  rw [hu]
  rw [dropWhile_eq_drop_length]
  rw [List.drop_drop]

/-- C5: after the eviction sweep, on a store whose keys are distinct (as
IndexedDB keys are): no expired record (age strictly beyond
`CACHE_EXPIRY_MS`) remains; at most `CACHE_MAX_ENTRIES` records remain;
and the retained records are exactly the `fetchedAt`-sorted unexpired
records with the oldest removed down to the bound — the most recently
fetched unexpired records. -/
theorem claimC5 (now : Int) (entries : List StoreEntry)
    (hnd : (entries.map Prod.fst).Nodup) :
    (∀ e ∈ cleanupRetained now entries, expiredPred now e = false)
    ∧ (cleanupRetained now entries).length ≤ CACHE_MAX_ENTRIES
    ∧ cleanupRetained now entries
      = (unexpiredSorted now entries).drop
          ((unexpiredSorted now entries).length - CACHE_MAX_ENTRIES) := by
  have hmain := cleanupRetained_eq now entries hnd
  refine ⟨?_, ?_, hmain⟩
  · intro x hx
    rw [hmain] at hx
    have hxu : x ∈ unexpiredSorted now entries := List.drop_subset _ _ hx
    unfold unexpiredSorted at hxu
    have hxf := List.of_mem_filter hxu
    simpa using hxf
  · rw [hmain, List.length_drop]
    omega

theorem claimC5_witness :
    (∀ e ∈ cleanupRetained 100 [("a", ⟨some 0, none, "u", .jnull⟩)],
        expiredPred 100 e = false)
    ∧ (cleanupRetained 100 [("a", ⟨some 0, none, "u", .jnull⟩)]).length
        ≤ CACHE_MAX_ENTRIES
    ∧ cleanupRetained 100 [("a", ⟨some 0, none, "u", .jnull⟩)]
      = (unexpiredSorted 100 [("a", ⟨some 0, none, "u", .jnull⟩)]).drop
          ((unexpiredSorted 100 [("a", ⟨some 0, none, "u", .jnull⟩)]).length
            - CACHE_MAX_ENTRIES) :=
  claimC5 100 [("a", ⟨some 0, none, "u", .jnull⟩)] (by simp)
